import Mathlib

/-!
# Verification of the XNAT store-adapter translation layer

A shallow embedding of the store adapter in `arcana/xnat/data/api.py` and
`arcana/xnat/data/cs.py`.  Python strings are modelled as `List Char`,
Python exceptions as an explicit error type threaded through `Except`,
and the remote object model (scans, resources, rows) as plain structures.
-/

namespace ArcanaXnat

/-- Python strings are modelled as lists of characters. -/
abbrev Str := List Char

/-- The `Clinical` data space (`arcana.core.data.Clinical`): the row
frequencies the adapter distinguishes (`get_xrow`, `get_input_mount`). -/
inductive Clinical where
  | dataset
  | subject
  | timepoint
  | session
  deriving DecidableEq

/-- Datatypes the adapter attaches to entries: the generic `FileSet`,
`DicomSet`, scalar `Field`, and a datatype recognised from a MIME string
(`FileSet.from_mime`). -/
inductive DType where
  | fileSet
  | dicomSet
  | fieldT
  | mime (m : Str)
  deriving DecidableEq

/-- `mime_like` attribute of a datatype, used as the `format` of a newly
created resource in `create_fileset_entry`. -/
def DType.mimeLike : DType → Str
  | .fileSet => "generic/file-set".data
  | .dicomSet => "medimage/dicom-set".data
  | .fieldT => "field/text".data
  | .mime m => m

/-- The Python exceptions raised by the adapter.
`usage` is `ArcanaUsageError`; `arcana` is `ArcanaError` (raised in
`download_files` with the decompression failure chained as its cause);
`noDirectMount` is `ArcanaNoDirectXnatMountException`; `keyError`,
`typeError`, `indexError`, `attributeError` are the Python builtins. -/
inductive XnatErr where
  | usage (msg : Str)
  | arcana (cause : Str)
  | notImplemented (msg : Str)
  | noDirectMount
  | keyError
  | typeError (msg : Str)
  | indexError
  | attributeError
  deriving DecidableEq

/-- The spec's §7 taxonomy groups caller contract violations — null URI on
checksum retrieval (`ArcanaUsageError`) and unsupported entry-path form
(`NotImplementedError` in `create_fileset_entry`) — under one
"UsageError" category. -/
def XnatErr.usageCategory : XnatErr → Bool
  | .usage _ => true
  | .notImplemented _ => true
  | _ => false

/-- A remote XNAT resource as seen by the adapter: its label, its REST
URI and its declared format string. -/
structure XResource where
  label : Str
  uri : Str
  format : Str
  deriving DecidableEq

/-- A remote XNAT scan: `type`, `id`, `quality` flag and attached
resources, as read by `populate_row`. -/
structure XScan where
  type : Str
  id : Str
  quality : Str
  resources : List XResource
  deriving DecidableEq

/-- The remote row object resolved by `get_xrow`, with the pieces
`populate_row` iterates over.  `scans = none` models the
`AttributeError` taken for subject/project rows, which structurally
lack a scan collection. -/
structure XRow where
  scans : Option (List XScan)
  fields : List Str
  resources : List XResource

/-- A generic data entry registered through `row.add_entry`. -/
structure Entry where
  path : Str
  datatype : DType
  uri : Option Str := none
  order : Option Str := none
  quality : Option Str := none
  item_metadata : List (Str × Str) := []
  checksums : Option (List (Str × Str)) := none
  deriving DecidableEq

/-! ## Addressing translator: `path2varname` / `varname2path`

Modelled from the spec: the translation functions live in
`arcana.core.utils.misc`, outside this repository's sources; only their
callers appear under `src/`.  Spec §4.1: reserved characters (anything
outside `[A-Za-z0-9_]`) are escaped to a reversible safe form; a path
ending in the bare derivative marker `@` is mapped to/from a sentinel
"empty name" constant; a label that, after reversal, ends with the
literal sentinel suffix has that suffix stripped back to the bare
derivative marker.  The escape code used here maps a non-alphanumeric
character `c` to `'_'` followed by `c.toNat` copies of `'o'` and a
closing `'_'`; the underscore itself is escaped as well so that the
encoding is injective on every path, as the spec's mutual-inverse
contract requires. -/

/-- Escape a single character into the safe alphabet. -/
def escapeChar (c : Char) : Str :=
  if c.isAlphanum then [c]
  else '_' :: (List.replicate c.toNat 'o' ++ ['_'])

/-- Escape a whole path. -/
def escapeStr : Str → Str
  | [] => []
  | c :: cs => escapeChar c ++ escapeStr cs

/-- Count the leading run of `'o'` characters; return the count and the
remainder. -/
def countOs : Str → Nat × Str
  | [] => (0, [])
  | c :: cs =>
    if c = 'o' then
      let p := countOs cs
      (p.1 + 1, p.2)
    else (0, c :: cs)

/-- Fuel-indexed unescape loop: an `'_'` followed by a run of `'o'`s and
a closing `'_'` decodes to the character with that code point; any other
character is literal.  Fuel at least the input length always suffices
(each step consumes at least one input character). -/
def unescapeAux : Nat → Str → Str
  | _, [] => []
  | 0, l => l
  | fuel + 1, c :: cs =>
    if c = '_' then
      match countOs cs with
      | (n, '_' :: rest) => Char.ofNat n :: unescapeAux fuel rest
      | _ => c :: unescapeAux fuel cs
    else c :: unescapeAux fuel cs

/-- Invert `escapeStr`. -/
def unescapeStr (l : Str) : Str :=
  unescapeAux l.length l

/-- The sentinel "empty name" constant standing in for the empty name
after a bare trailing derivative marker. -/
def emptyPathName : Str := "EMPTY".data

/-- `startsWithStr s pat`: `pat` is a leading run of `s`. -/
def startsWithStr : Str → Str → Bool
  | _, [] => true
  | [], _ :: _ => false
  | c :: cs, p :: ps => c == p && startsWithStr cs ps

/-- `endsWithSeq s t`: `t` is a trailing run of `s`. -/
def endsWithSeq (s t : Str) : Bool :=
  startsWithStr s.reverse t.reverse

/-- `path_to_label`: a path ending in the bare derivative marker has the
sentinel appended, then every character is escaped into the safe
alphabet. -/
def path2varname (p : Str) : Str :=
  escapeStr (if p.getLast? = some '@' then p ++ emptyPathName else p)

/-- `label_to_path`: unescape, then strip a trailing sentinel back to
the bare derivative marker. -/
def varname2path (l : Str) : Str :=
  let s := unescapeStr l
  if endsWithSeq s emptyPathName then s.take (s.length - emptyPathName.length)
  else s

/-! ## `_get_resource_uri` (api.py lines 518-521)

`re.match(r"(.*/)[^/]+", xresource.uri).group(1) + xresource.label`:
greedy `(.*/)` captures up to the last `/` that is followed by at least
one non-`/` character; the final segment is replaced by the label. -/

/-- The split performed by `re.match(r"(.*/)[^/]+", s)`: returns
`(group 1, remainder)` for the greedy (rightmost) admissible slash, or
`none` when the regex does not match (in the source this would surface
as an `AttributeError` on `.group`). -/
def regexSplit : Str → Option (Str × Str)
  | [] => none
  | c :: cs =>
    match regexSplit cs with
    | some (pre, post) => some (c :: pre, post)
    | none =>
      if c = '/' then
        match cs with
        | d :: _ => if d = '/' then none else some ([c], cs)
        | [] => none
      else none

/-- `Xnat._get_resource_uri`: replaces the final URI segment (the
resource's numeric id) with the resource label.  `none` models the
`AttributeError` the source would raise on a URI with no admissible
slash, a case that cannot arise for real resource URIs. -/
def _get_resource_uri (r : XResource) : Option Str :=
  (regexSplit r.uri).map (fun pr => pr.1 ++ r.label)

/-- The segment of `s` after its last `/` (all of `s` when it has no
slash). -/
def lastSegment (s : Str) : Str :=
  (s.reverse.takeWhile (fun c => !(c == '/'))).reverse

/-! ## `XnatViaCS.get_input_mount` (cs.py lines 166-175) -/

/-- `XnatViaCS.get_input_mount`, translated clause for clause: the store's
configured `row_frequency`, its `input_mount`, and the entry's row
frequency and row id. -/
def get_input_mount (storeFreq : Clinical) (inputMount : Str)
    (rowFreq : Clinical) (rowId : Str) : Except XnatErr Str :=
  if storeFreq = rowFreq then .ok inputMount
  else if storeFreq = Clinical.dataset ∧ rowFreq = Clinical.session then
    .ok (inputMount ++ '/' :: rowId)
  else .error .noDirectMount

/-! ## `XnatViaCS.get_fileset` (cs.py lines 81-94)

Only the `get_input_mount` call sits inside the
`try/except ArcanaNoDirectXnatMountException` block; on that exception
the method delegates to `super().get_fileset` (the network path).  The
network implementation and the direct-access tail are taken as
parameters since they live outside this decision. -/

/-- `XnatViaCS.get_fileset`'s dispatch between the direct mount and the
network fallback. -/
def get_fileset_cs (superGetFileset : Except XnatErr (List Str))
    (directTail : Str → Except XnatErr (List Str))
    (storeFreq : Clinical) (inputMount : Str)
    (rowFreq : Clinical) (rowId : Str) : Except XnatErr (List Str) :=
  match get_input_mount storeFreq inputMount rowFreq rowId with
  | .error _ => superGetFileset
  | .ok m => directTail m

/-! ## `Xnat.download_files` (api.py lines 133-157)

The download stream is written to `download.zip`; `ZipFile` extraction
either succeeds with a tree or fails with `BadZipfile`, in which case
`ArcanaError(...) from e` is raised — before the target cache path is
touched.  Only on successful extraction is the located `files`
directory (`glob(...)[0]`, `IndexError` when absent) moved over the
target (removing a pre-existing target, ignoring `ENOENT`). -/

/-- `Xnat.download_files`.  `parse` is the result of attempting to open
the downloaded archive as a zip (`.error cause` models `BadZipfile`);
`findFilesDir` is the `glob(... "/**/files")` lookup on the extracted
tree; `target` is the prior content of the target cache path.  Returns
the raised-or-ok outcome together with the final target content. -/
def download_files {α : Type} (parse : Except Str α)
    (findFilesDir : α → Option α) (target : Option α) :
    Except XnatErr Unit × Option α :=
  match parse with
  | .error cause => (.error (.arcana cause), target)
  | .ok tree =>
    match findFilesDir tree with
    | none => (.error .indexError, target)
    | some dataDir => (.ok (), some dataDir)

/-! ## `Xnat.upload_files` (api.py lines 159-164) -/

/-- The effect of `xresource.upload_dir(cache_path, overwrite=True)`:
which directory is pushed and whether overwrite is enabled. -/
structure UploadAction where
  dir : Str
  overwrite : Bool
  deriving DecidableEq

/-- `Xnat.upload_files`: the entire cache directory for the entry is
uploaded with `overwrite=True`, unconditionally — the entry (and in
particular whether its path carries the derivative marker) is not
consulted. -/
def upload_files (cache_path : Str) (_entry : Entry) : UploadAction :=
  { dir := cache_path, overwrite := true }

/-! ## `Xnat.create_fileset_entry` (api.py lines 166-205) -/

/-- Row-level state mutated by `create_fileset_entry`: the row's entries
and the remote resources existing under the row. -/
structure CfeState where
  entries : List Entry
  resources : List XResource

/-- `Xnat.create_fileset_entry`.  A path not starting with the
derivative marker `@` raises `NotImplementedError` before anything is
created; otherwise the marker is stripped, a `ResourceCatalog` with
label `path2varname(path)` is created (the server assigns it the fresh
numeric id `newId` under `xrowUri`), and the entry is registered with
the label-rewritten URI. -/
def create_fileset_entry (newId : Str) (xrowUri : Str)
    (path : Str) (datatype : DType) (st : CfeState) :
    Except XnatErr Entry × CfeState :=
  if path.head? = some '@' then
    let p := path.tail
    let res : XResource :=
      { label := path2varname p,
        uri := xrowUri ++ "/resources/".data ++ newId,
        format := datatype.mimeLike }
    let entry : Entry := { path := p, datatype := datatype, uri := _get_resource_uri res }
    (.ok entry, { entries := st.entries ++ [entry], resources := st.resources ++ [res] })
  else
    (.error (.notImplemented "Posting fileset to non-derivative path is not currently supported".data), st)

/-! ## `Xnat.populate_row` (api.py lines 91-131)

Scan resources, row fields and standalone row resources are registered
in that order.  The remote lookups performed per entry —
`FileSet.from_mime`, `get_dicom_header`, `get_checksums` — are supplied
as functions, since they call collaborators outside this decision. -/

/-- Concatenation of the lists produced by `f` over `l` (the nested
`for` loops of `populate_row`). -/
def concatMapList (f : α → List β) : List α → List β
  | [] => []
  | a :: as => f a ++ concatMapList f as

def dicomLabel : Str := "DICOM".data

def secondaryLabel : Str := "secondary".data

/-- The entry registered for one resource of one scan (api.py lines
102-110): path `"{scan-type}/{resource-label}"`, datatype `FileSet`,
order the scan id, quality the scan quality flag, URI label-rewritten. -/
def scanEntry (sc : XScan) (r : XResource) : Entry :=
  { path := sc.type ++ '/' :: r.label,
    datatype := .fileSet,
    order := some sc.id,
    quality := some sc.quality,
    uri := _get_resource_uri r }

/-- The entry registered for a field id (api.py line 112). -/
def fieldEntry (fid : Str) : Entry :=
  { path := varname2path fid, datatype := .fieldT, uri := none }

/-- The entry registered for a standalone row resource (api.py lines
113-131): datatype from the declared format with `FileSet` fallback,
upgraded to `DicomSet` — with DICOM header metadata attached — when the
label is `DICOM` or `secondary`; path is the translated label behind
the derivative marker. -/
def rowResourceEntry (fromMime : Str → Option DType)
    (getDicomHeader : Option Str → List (Str × Str))
    (getChecksums : Option Str → List (Str × Str)) (r : XResource) : Entry :=
  let uri := _get_resource_uri r
  let dt0 := (fromMime r.format).getD .fileSet
  let isDicom := r.label = dicomLabel ∨ r.label = secondaryLabel
  { path := '@' :: varname2path r.label,
    datatype := if isDicom ∧ dt0 = .fileSet then .dicomSet else dt0,
    uri := uri,
    item_metadata := if isDicom then getDicomHeader uri else [],
    checksums := some (getChecksums uri) }

/-- `Xnat.populate_row`. -/
def populate_row (fromMime : Str → Option DType)
    (getDicomHeader : Option Str → List (Str × Str))
    (getChecksums : Option Str → List (Str × Str)) (xrow : XRow) : List Entry :=
  (match xrow.scans with
   | none => []
   | some scans => concatMapList (fun sc => sc.resources.map (scanEntry sc)) scans)
  ++ xrow.fields.map fieldEntry
  ++ xrow.resources.map (rowResourceEntry fromMime getDicomHeader getChecksums)

/-- Every remote resource reachable from a row: resources of its scans
plus its standalone resources. -/
def allResources (xrow : XRow) : List XResource :=
  concatMapList XScan.resources (xrow.scans.getD []) ++ xrow.resources

/-! ## Provenance (`api.py` lines 355-369 and 433-451)

`_provenance_location` composes the provenance file name and URI, then
runs `cache_path.parent.mkdir(parent=True, exist_ok=True)`.  `pathlib`'s
`mkdir` accepts the keywords `mode`, `parents` and `exist_ok`; the
source passes the unknown keyword `parent`, so this call raises
`TypeError` on every invocation — before the provenance resource is
even looked up. -/

/-- The keyword parameters accepted by `pathlib.Path.mkdir`. -/
def mkdirKnownKwarg (k : Str) : Bool :=
  k == "mode".data || k == "parents".data || k == "exist_ok".data

/-- A call to `Path.mkdir` with the given keyword-argument names:
Python raises `TypeError` on any unexpected keyword. -/
def pathMkdir (kwargs : List Str) : Except XnatErr Unit :=
  if kwargs.all mkdirKnownKwarg then .ok ()
  else .error (.typeError "mkdir got an unexpected keyword argument".data)

/-- The item whose provenance is being located: its path and whether it
is a field item (`FIELD_PROV_PREFIX` naming) or a file-set item
(`.json` suffix). -/
structure ProvItem where
  path : Str
  is_field : Bool

/-- `RemoteStore.FIELD_PROV_PREFIX` (value immaterial here). -/
def fieldProvPrefix : Str := "__field_prov__".data

/-- `RemoteStore.PROV_RESOURCE` reserved resource label (value
immaterial here). -/
def provResourceLabel : Str := "__provenance__".data

/-- `Xnat._provenance_location`.  `hasProvResource` says whether the
reserved provenance resource already exists on the remote row; the
returned flag says whether the call created it.  The `KeyError` from
`xrow.resources[...]` propagates when the resource is absent and
`create_resource` is not set. -/
def _provenance_location (item : ProvItem) (create_resource : Bool)
    (xrowUri : Str) (hasProvResource : Bool) :
    Except XnatErr (Str × Bool) :=
  let fname :=
    if item.is_field then fieldProvPrefix ++ path2varname item.path
    else path2varname item.path ++ ".json".data
  let uri := xrowUri ++ "/resources/".data ++ provResourceLabel ++ "/files/".data ++ fname
  match pathMkdir ["parent".data, "exist_ok".data] with
  | .error e => .error e
  | .ok _ =>
    if hasProvResource then .ok (uri, false)
    else if create_resource then .ok (uri, true)
    else .error .keyError

/-- `Xnat.get_provenance`: only a `KeyError` from
`_provenance_location` is caught and mapped to the empty record;
`downloaded` stands for the record parsed from the remote file when the
location resolves. -/
def get_provenance (downloaded : List (Str × Str)) (item : ProvItem)
    (xrowUri : Str) (hasProvResource : Bool) :
    Except XnatErr (List (Str × Str)) :=
  match _provenance_location item false xrowUri hasProvResource with
  | .error .keyError => .ok []
  | .error e => .error e
  | .ok _ => .ok downloaded

/-- `Xnat.put_provenance`: resolves the location with
`create_resource=True` (creating the reserved resource when missing)
and uploads; returns whether the resource was created. -/
def put_provenance (item : ProvItem) (xrowUri : Str) (hasProvResource : Bool) :
    Except XnatErr Bool :=
  match _provenance_location item true xrowUri hasProvResource with
  | .error e => .error e
  | .ok pr => .ok pr.2

/-! ## `Xnat.get_checksums` (api.py lines 249-277)

A `None` URI raises `ArcanaUsageError`.  Otherwise the remote file
listing (`URI`/`digest` pairs) is turned into a dict, sorted, and
re-keyed through `re.match(r".*/resources/\w+/files/(.*)$", u).group(1)`
— the greedy `.*` selects the rightmost occurrence of the pattern.
Since `\w` cannot match `/`, shortening the greedy `\w+` run can never
expose another viable match, so the regex is equivalent to the
deterministic matcher below. -/

/-- One row of the remote file listing. -/
structure FileResult where
  uri : Str
  digest : Str
  deriving DecidableEq

/-- `\w`: `[A-Za-z0-9_]`. -/
def isWordChar (c : Char) : Bool := c.isAlphanum || c == '_'

/-- Attempt to match `/resources/\w+/files/(.*)$` at the head of `l`,
returning the capture. -/
def matchHere (l : Str) : Option Str :=
  if startsWithStr l "/resources/".data then
    let rest := l.drop 11
    let run := rest.takeWhile isWordChar
    if run = ([] : Str) then none
    else if startsWithStr (rest.drop run.length) "/files/".data then
      some ((rest.drop run.length).drop 7)
    else none
  else none

/-- The capture of the rightmost match of
`/resources/\w+/files/(.*)$` (the greedy `.*` semantics); `none` models
the `AttributeError` on `.group` when the regex does not match. -/
def lastCapture : Str → Option Str
  | [] => none
  | c :: cs =>
    match lastCapture cs with
    | some r => some r
    | none => matchHere (c :: cs)

/-- `pat` occurs as a contiguous run somewhere in `s`. -/
def containsStr : Str → Str → Bool
  | [], pat => startsWithStr [] pat
  | c :: cs, pat => startsWithStr (c :: cs) pat || containsStr cs pat

/-- Python dict update `d[k] = v`: replace in place when the key is
present, else append. -/
def dictUpsert : List (Str × Str) → Str → Str → List (Str × Str)
  | [], k, v => [(k, v)]
  | (k', v') :: t, k, v =>
    if k' = k then (k', v) :: t else (k', v') :: dictUpsert t k v

/-- A Python dict built by inserting the pairs left to right
(insertion-order iteration, later duplicates overwrite in place). -/
def pyDict (l : List (Str × Str)) : List (Str × Str) :=
  List.foldl (fun d kv => dictUpsert d kv.1 kv.2) [] l

/-- Code-point lexicographic `≤` on strings (Python string order). -/
def strLe : Str → Str → Bool
  | [], _ => true
  | _ :: _, [] => false
  | a :: as, b :: bs =>
    if a.toNat < b.toNat then true
    else if b.toNat < a.toNat then false
    else strLe as bs

/-- Python tuple order on `(key, value)` pairs, as used by
`sorted(checksums.items())`. -/
def pairLe (x y : Str × Str) : Bool :=
  if x.1 = y.1 then strLe x.2 y.2 else strLe x.1 y.1

/-- Insert into a `le`-sorted list. -/
def insertLe (le : α → α → Bool) (a : α) : List α → List α
  | [] => [a]
  | b :: bs => if le a b then a :: b :: bs else b :: insertLe le a bs

/-- Insertion sort.  Python's `sorted` is extensionally the same
function on any list whose order is total, transitive and antisymmetric
(the sorted permutation is then unique). -/
def sortLe (le : α → α → Bool) : List α → List α
  | [] => []
  | a :: as => insertLe le a (sortLe le as)

/-- Re-key a dict through the regex capture; `none` when some key does
not match (Python would raise `AttributeError`). -/
def mapStripKeys : List (Str × Str) → Option (List (Str × Str))
  | [] => some []
  | (k, v) :: t =>
    match lastCapture k, mapStripKeys t with
    | some k', some t' => some ((k', v) :: t')
    | _, _ => none

/-- `Xnat.get_checksums`.  `results` is the remote `ResultSet` for
`uri + "/files"`. -/
def get_checksums (uri : Option Str) (results : List FileResult) :
    Except XnatErr (List (Str × Str)) :=
  match uri with
  | none => .error (.usage "Cant retrieve checksums as URI has not been set".data)
  | some _ =>
    let d := pyDict (results.map (fun r => (r.uri, r.digest)))
    match mapStripKeys (sortLe pairLe d) with
    | none => .error .attributeError
    | some l => .ok (pyDict l)

/-! # Theorems -/

/-! ## Round trip of the addressing translator -/

theorem countOs_replicate (n : Nat) (rest : Str) :
    countOs (List.replicate n 'o' ++ '_' :: rest) = (n, '_' :: rest) := by
  induction n with
  | zero =>
    show countOs ('_' :: rest) = (0, '_' :: rest)
    simp only [countOs]
    rw [if_neg (by decide)]
  | succ k ih =>
    rw [List.replicate_succ, List.cons_append]
    simp [countOs, ih]

theorem unescapeAux_escapeStr (l : Str) :
    ∀ fuel, (escapeStr l).length ≤ fuel → unescapeAux fuel (escapeStr l) = l := by
  induction l with
  | nil =>
    intro fuel _
    cases fuel <;> rfl
  | cons c cs ih =>
    intro fuel hfuel
    by_cases hc : c.isAlphanum
    · have hesc : escapeStr (c :: cs) = c :: escapeStr cs := by
        simp [escapeStr, escapeChar, hc]
      rw [hesc] at hfuel ⊢
      cases fuel with
      | zero => simp at hfuel
      | succ f =>
        have hne : c ≠ '_' := by
          intro h
          rw [h] at hc
          exact absurd hc (by decide)
        have hf : (escapeStr cs).length ≤ f := by
          simp only [List.length_cons] at hfuel
          omega
        simp only [unescapeAux, if_neg hne]
        rw [ih f hf]
    · have hesc : escapeStr (c :: cs) =
          '_' :: (List.replicate c.toNat 'o' ++ '_' :: escapeStr cs) := by
        simp [escapeStr, escapeChar, hc]
      rw [hesc] at hfuel ⊢
      cases fuel with
      | zero => simp at hfuel
      | succ f =>
        have hf : (escapeStr cs).length ≤ f := by
          simp only [List.length_cons, List.length_append, List.length_replicate]
            at hfuel
          omega
        simp [unescapeAux, countOs_replicate, ih f hf]

theorem unescape_escape (l : Str) : unescapeStr (escapeStr l) = l :=
  unescapeAux_escapeStr l _ (Nat.le_refl _)

theorem startsWithStr_append (x y : Str) : startsWithStr (x ++ y) x = true := by
  induction x with
  | nil =>
    show startsWithStr y [] = true
    cases y <;> rfl
  | cons c cs ih => simp [startsWithStr, ih]

theorem endsWithSeq_append (p t : Str) : endsWithSeq (p ++ t) t = true := by
  unfold endsWithSeq
  rw [List.reverse_append]
  exact startsWithStr_append t.reverse p.reverse

/-- C1: for every valid entry path `p` — one not ending in the literal
sentinel, which is reserved for encoding the bare derivative marker —
translating to a remote label and back is the identity:
`varname2path (path2varname p) = p`, including paths ending in the bare
derivative marker `@`. -/
theorem c1_path_label_round_trip (p : Str)
    (hvalid : endsWithSeq p emptyPathName = false) :
    varname2path (path2varname p) = p := by
  unfold path2varname varname2path
  by_cases hat : p.getLast? = some '@'
  · rw [if_pos hat]
    simp only [unescape_escape]
    rw [if_pos (endsWithSeq_append p emptyPathName)]
    have hlen : (p ++ emptyPathName).length - emptyPathName.length = p.length := by
      simp
    rw [hlen, List.take_left]
  · rw [if_neg hat]
    simp only [unescape_escape]
    rw [if_neg (by simp [hvalid])]

/-- Witness for C1: the path `t1w/@`, ending in the bare derivative
marker, round-trips through the translator. -/
theorem c1_witness :
    endsWithSeq "t1w/@".data emptyPathName = false ∧
    varname2path (path2varname "t1w/@".data) = "t1w/@".data :=
  ⟨by decide, c1_path_label_round_trip "t1w/@".data (by decide)⟩

/-- C5: `get_input_mount` resolves the direct mount in exactly three
cases: row frequency equal to the configured mount frequency returns the
input mount root; configured frequency `dataset` with row frequency
`session` returns the mount root joined with the row id; every other
combination raises `NoDirectMountError`
(`ArcanaNoDirectXnatMountException`). -/
theorem c5_get_input_mount_cases (storeFreq : Clinical) (inputMount : Str)
    (rowFreq : Clinical) (rowId : Str) :
    (rowFreq = storeFreq →
      get_input_mount storeFreq inputMount rowFreq rowId = .ok inputMount) ∧
    (storeFreq = Clinical.dataset → rowFreq = Clinical.session →
      get_input_mount storeFreq inputMount rowFreq rowId =
        .ok (inputMount ++ '/' :: rowId)) ∧
    (rowFreq ≠ storeFreq →
      ¬(storeFreq = Clinical.dataset ∧ rowFreq = Clinical.session) →
      get_input_mount storeFreq inputMount rowFreq rowId = .error .noDirectMount) := by
  refine ⟨?_, ?_, ?_⟩
  · intro h
    subst h
    simp [get_input_mount]
  · intro h1 h2
    subst h1
    subst h2
    simp [get_input_mount]
  · intro h1 h2
    unfold get_input_mount
    rw [if_neg (fun h => h1 h.symm), if_neg h2]

/-- Witness for C5: a dataset-frequency mount with a session-frequency
row resolves to the mount root joined with the row id. -/
theorem c5_witness :
    get_input_mount Clinical.dataset "/input".data Clinical.session "sess1".data =
      .ok ("/input".data ++ '/' :: "sess1".data) :=
  (c5_get_input_mount_cases Clinical.dataset "/input".data Clinical.session
    "sess1".data).2.1 rfl rfl

/-- C6: `XnatViaCS.get_fileset` never propagates
`ArcanaNoDirectXnatMountException`: whenever `get_input_mount` raises
it, `get_fileset` delegates to the parent class's network
implementation, so the result comes either from the direct mount or
from the network path. -/
theorem c6_no_direct_mount_never_surfaced
    (superGetFileset : Except XnatErr (List Str))
    (directTail : Str → Except XnatErr (List Str))
    (storeFreq : Clinical) (inputMount : Str) (rowFreq : Clinical) (rowId : Str)
    (hsuper : superGetFileset ≠ .error .noDirectMount)
    (htail : ∀ m, directTail m ≠ .error .noDirectMount) :
    get_fileset_cs superGetFileset directTail storeFreq inputMount rowFreq rowId ≠
      .error .noDirectMount ∧
    (get_input_mount storeFreq inputMount rowFreq rowId = .error .noDirectMount →
      get_fileset_cs superGetFileset directTail storeFreq inputMount rowFreq rowId =
        superGetFileset) := by
  rcases hgim : get_input_mount storeFreq inputMount rowFreq rowId with e | m
  · refine ⟨?_, fun _ => ?_⟩ <;> simp [get_fileset_cs, hgim]
    exact hsuper
  · refine ⟨?_, fun he => ?_⟩
    · simp only [get_fileset_cs, hgim]
      exact htail m
    · exact absurd he (by simp)

/-- Witness for C6: a store whose mount frequency satisfies neither
matching condition falls back to the network result. -/
theorem c6_witness :
    get_fileset_cs (.ok []) (fun _ => .ok []) Clinical.session "/input".data
      Clinical.dataset "row1".data ≠ .error .noDirectMount :=
  (c6_no_direct_mount_never_surfaced (.ok []) (fun _ => .ok []) Clinical.session
    "/input".data Clinical.dataset "row1".data (by simp) (fun _ => by simp)).1

/-- C2: when the downloaded archive stream is not a valid zip,
`download_files` raises the transfer error (`ArcanaError` in the code,
the spec's `TransferError`) wrapping the decompression failure as its
cause, and the target cache path is left exactly as it was — in
particular no partial directory appears there. -/
theorem c2_download_corrupt_archive {α : Type} (parse : Except Str α)
    (findFilesDir : α → Option α) (target : Option α) (cause : Str)
    (hbad : parse = .error cause) :
    download_files parse findFilesDir target = (.error (.arcana cause), target) := by
  subst hbad
  rfl

/-- Witness for C2: a non-zip byte stream fails with the wrapped cause
and leaves an absent target absent. -/
theorem c2_witness :
    download_files (α := List Str) (.error "File is not a zip file".data)
      (fun t => some t) none =
      (.error (.arcana "File is not a zip file".data), none) :=
  c2_download_corrupt_archive _ _ _ _ rfl

/-- C7 counterexample: the claim says overwriting existing remote
content is forbidden for primary (non-derivative) entries, but
`upload_files` passes `overwrite=True` unconditionally — also for this
entry at the non-derivative path `t1w/DICOM`. -/
theorem c7_counterexample :
    (upload_files "/cache/projects/P/t1w/DICOM".data
        { path := "t1w/DICOM".data, datatype := .fileSet }).overwrite = true ∧
    ("t1w/DICOM".data).head? ≠ some '@' :=
  ⟨rfl, by decide⟩

/-- C7 amended: `upload_files` pushes the entire local cache directory
to the entry's remote resource with overwrite always permitted,
regardless of whether the entry is derivative; primary acquired data is
protected only at entry creation, where `create_fileset_entry` refuses
non-derivative paths without touching the row. -/
theorem c7_upload_always_overwrites (cache_path : Str) (entry : Entry) :
    upload_files cache_path entry = { dir := cache_path, overwrite := true } ∧
    (∀ newId xrowUri path datatype st, path.head? ≠ (some '@' : Option Char) →
      (create_fileset_entry newId xrowUri path datatype st).1 =
        .error (.notImplemented
          "Posting fileset to non-derivative path is not currently supported".data) ∧
      (create_fileset_entry newId xrowUri path datatype st).2 = st) := by
  refine ⟨rfl, ?_⟩
  intro newId xrowUri path datatype st hpath
  unfold create_fileset_entry
  rw [if_neg hpath]
  exact ⟨rfl, rfl⟩

/-- Witness for C7's amended theorem: a store pushing a cache directory
for a primary entry still uploads with overwrite enabled, and creating
at a primary path is refused. -/
theorem c7_witness :
    upload_files "/cache/p".data { path := "t1w/DICOM".data, datatype := .fileSet } =
      { dir := "/cache/p".data, overwrite := true } ∧
    (create_fileset_entry "9".data "/data/projects/P".data "t1w/DICOM".data
        .fileSet ⟨[], []⟩).2 = ⟨[], []⟩ :=
  ⟨(c7_upload_always_overwrites "/cache/p".data
      { path := "t1w/DICOM".data, datatype := .fileSet }).1,
   ((c7_upload_always_overwrites "/cache/p".data
      { path := "t1w/DICOM".data, datatype := .fileSet }).2
      "9".data "/data/projects/P".data "t1w/DICOM".data .fileSet ⟨[], []⟩
      (by decide)).2⟩

/-- C8: `create_fileset_entry` on a path without the leading derivative
marker raises `NotImplementedError` — a caller contract violation in
the spec's UsageError category — creating no entry and no remote
resource; on a derivative path it strips the marker and creates the
resource and the entry. -/
theorem c8_create_fileset_entry_guard (newId xrowUri : Str) (path : Str)
    (datatype : DType) (st : CfeState) :
    (path.head? ≠ (some '@' : Option Char) →
      ∃ m, (create_fileset_entry newId xrowUri path datatype st).1 =
          .error (.notImplemented m) ∧
        (XnatErr.notImplemented m).usageCategory = true ∧
        (create_fileset_entry newId xrowUri path datatype st).2 = st) ∧
    (∀ p, path = '@' :: p →
      ∃ e, (create_fileset_entry newId xrowUri path datatype st).1 = .ok e ∧
        e.path = p ∧ e.datatype = datatype ∧
        (create_fileset_entry newId xrowUri path datatype st).2.entries =
          st.entries ++ [e] ∧
        (create_fileset_entry newId xrowUri path datatype st).2.resources =
          st.resources ++ [XResource.mk (path2varname p)
            (xrowUri ++ "/resources/".data ++ newId) datatype.mimeLike]) := by
  constructor
  · intro hpath
    unfold create_fileset_entry
    rw [if_neg hpath]
    exact ⟨_, rfl, rfl, rfl⟩
  · intro p hp
    subst hp
    exact ⟨_, rfl, rfl, rfl, rfl, rfl⟩

/-- Witness for C8: creating at the derivative path `@deriv` strips the
marker and registers the entry. -/
theorem c8_witness :
    ∃ e, (create_fileset_entry "101".data "/data/projects/P".data "@deriv".data
        .fileSet ⟨[], []⟩).1 = .ok e ∧
      e.path = "deriv".data ∧ e.datatype = .fileSet ∧
      (create_fileset_entry "101".data "/data/projects/P".data "@deriv".data
        .fileSet ⟨[], []⟩).2.entries = [] ++ [e] ∧
      (create_fileset_entry "101".data "/data/projects/P".data "@deriv".data
        .fileSet ⟨[], []⟩).2.resources =
        [] ++ [XResource.mk (path2varname "deriv".data)
          ("/data/projects/P".data ++ "/resources/".data ++ "101".data)
          DType.fileSet.mimeLike] :=
  (c8_create_fileset_entry_guard "101".data "/data/projects/P".data "@deriv".data
    .fileSet ⟨[], []⟩).2 "deriv".data rfl

/-- C9 (code bug): `_provenance_location` runs
`cache_path.parent.mkdir(parent=True, exist_ok=True)` — `parent` is not
a keyword `pathlib.Path.mkdir` accepts (`parents` is) — so every call
raises `TypeError` before the provenance resource is looked up.
`get_provenance` therefore raises `TypeError` instead of returning the
empty record on a row with no provenance resource, and `put_provenance`
raises before it can create the missing resource. -/
theorem c9_provenance_mkdir_typeerror (downloaded : List (Str × Str))
    (item : ProvItem) (xrowUri : Str) (hasProvResource : Bool) :
    get_provenance downloaded item xrowUri hasProvResource =
      .error (.typeError "mkdir got an unexpected keyword argument".data) ∧
    put_provenance item xrowUri hasProvResource =
      .error (.typeError "mkdir got an unexpected keyword argument".data) :=
  ⟨rfl, rfl⟩

/-! ## URI label rewriting and `populate_row` -/

theorem regexSplit_cons (c : Char) (cs : Str) :
    regexSplit (c :: cs) =
      (match regexSplit cs with
        | some (pre, post) => some (c :: pre, post)
        | none =>
          if c = '/' then
            match cs with
            | d :: _ => if d = '/' then none else some ([c], cs)
            | [] => none
          else none) := rfl

theorem regexSplit_none_of_no_slash (s : Str) (h : '/' ∉ s) : regexSplit s = none := by
  induction s with
  | nil => rfl
  | cons c cs ih =>
    have hc : c ≠ '/' := fun e => h (e ▸ List.mem_cons_self c cs)
    have hcs : '/' ∉ cs := fun m => h (List.mem_cons_of_mem c m)
    simp only [regexSplit, ih hcs]
    rw [if_neg hc]

theorem regexSplit_append (A B : Str) (hB : '/' ∉ B) (hne : B ≠ []) :
    regexSplit (A ++ '/' :: B) = some (A ++ ['/'], B) := by
  induction A with
  | nil =>
    simp only [List.nil_append]
    cases B with
    | nil => exact absurd rfl hne
    | cons d ds =>
      have hd : d ≠ '/' := fun e => hB (e ▸ List.mem_cons_self d ds)
      have hnos : regexSplit (d :: ds) = none :=
        regexSplit_none_of_no_slash (d :: ds) hB
      rw [regexSplit_cons, hnos]
      simp [hd]
  | cons a as ih =>
    rw [List.cons_append, regexSplit_cons, ih]
    rfl

theorem regexSplit_pre_form (s : Str) :
    ∀ pr, regexSplit s = some pr → ∃ A, pr.1 = A ++ ['/'] := by
  induction s with
  | nil =>
    intro pr h
    simp [regexSplit] at h
  | cons c cs ih =>
    intro pr h
    cases hcs : regexSplit cs with
    | some pr' =>
      obtain ⟨pre, post⟩ := pr'
      have hred : regexSplit (c :: cs) = some (c :: pre, post) := by
        rw [regexSplit_cons, hcs]
      rw [hred, Option.some.injEq] at h
      obtain ⟨A, hA⟩ := ih (pre, post) hcs
      subst h
      exact ⟨c :: A, by simp_all⟩
    | none =>
      cases cs with
      | nil =>
        have hred : regexSplit [c] = none := by
          rw [regexSplit_cons]
          simp [regexSplit]
        rw [hred] at h
        exact absurd h (by simp)
      | cons d ds =>
        by_cases hc : c = '/'
        · by_cases hd : d = '/'
          · have hred : regexSplit (c :: d :: ds) = none := by
              rw [regexSplit_cons, hcs]
              simp [hc, hd]
            rw [hred] at h
            exact absurd h (by simp)
          · have hred : regexSplit (c :: d :: ds) = some ([c], d :: ds) := by
              rw [regexSplit_cons, hcs]
              simp [hc, hd]
            rw [hred, Option.some.injEq] at h
            subst h
            exact ⟨[], by simp [hc]⟩
        · have hred : regexSplit (c :: d :: ds) = none := by
            rw [regexSplit_cons, hcs]
            simp [hc]
          rw [hred] at h
          exact absurd h (by simp)

theorem lastSegment_append (A lbl : Str) (h : '/' ∉ lbl) :
    lastSegment (A ++ '/' :: lbl) = lbl := by
  unfold lastSegment
  rw [List.reverse_append, List.reverse_cons, List.append_assoc]
  rw [List.takeWhile_append_of_pos (by
    intro a ha
    have : a ≠ '/' := fun e => h (e ▸ (List.mem_reverse).mp ha)
    simpa using this)]
  have hstop : List.takeWhile (fun c => !(c == '/')) (['/'] ++ A.reverse) = [] := by
    simp [List.takeWhile]
  rw [hstop, List.append_nil, List.reverse_reverse]

theorem lastSegment_get_resource_uri (r : XResource) (u : Str)
    (hu : _get_resource_uri r = some u) (hlbl : '/' ∉ r.label) :
    lastSegment u = r.label := by
  unfold _get_resource_uri at hu
  cases hsp : regexSplit r.uri with
  | none =>
    rw [hsp] at hu
    simp at hu
  | some pr =>
    rw [hsp] at hu
    simp at hu
    obtain ⟨A, hA⟩ := regexSplit_pre_form r.uri pr hsp
    rw [← hu, hA, List.append_assoc]
    simpa using lastSegment_append A r.label hlbl

theorem mem_concatMapList {α β : Type} {f : α → List β} {l : List α} {b : β} :
    b ∈ concatMapList f l ↔ ∃ a ∈ l, b ∈ f a := by
  induction l with
  | nil => simp [concatMapList]
  | cons x xs ih => simp [concatMapList, ih, List.mem_append]

/-- C3 counterexample: a session row with one scan of type `t1w`
carrying one resource labelled `DICOM`.  The claim says the registered
entry's datatype is a DICOM-series type; `populate_row` registers it
with the generic `FileSet` datatype (the scan loop at api.py lines
102-110 fixes `datatype=FileSet`; the DICOM/secondary inference lives
only in the standalone-resource loop at lines 113-131). -/
theorem c3_counterexample :
    (populate_row (fun _ => none) (fun _ => []) (fun _ => [])
        ⟨some [⟨"t1w".data, "1".data, "usable".data,
          [⟨"DICOM".data,
            "/data/projects/P/experiments/E/scans/1/resources/101".data,
            "".data⟩]⟩], [], []⟩).map (fun e => (e.path, e.datatype)) =
      [("t1w/DICOM".data, DType.fileSet)] ∧
    DType.fileSet ≠ DType.dicomSet :=
  ⟨rfl, by decide⟩

/-- C3 amended: `populate_row` registers, for each scan and each
resource attached to it, one entry at path
`"{scan-type}/{resource-label}"` with order the scan id and quality the
scan quality flag, and with datatype always the generic file-set type —
the DICOM-series inference for labels `DICOM`/`secondary` applies only
to standalone row resources, not to scan resources. -/
theorem c3_scan_resource_entries (fromMime : Str → Option DType)
    (gdh gcs : Option Str → List (Str × Str)) (scans : List XScan)
    (fields : List Str) (ress : List XResource) :
    (∀ sc ∈ scans, ∀ r ∈ sc.resources,
      Entry.mk (sc.type ++ '/' :: r.label) DType.fileSet (_get_resource_uri r)
        (some sc.id) (some sc.quality) [] none ∈
        populate_row fromMime gdh gcs ⟨some scans, fields, ress⟩) ∧
    (∀ e ∈ populate_row fromMime gdh gcs ⟨some scans, [], []⟩,
      ∃ sc ∈ scans, ∃ r ∈ sc.resources,
        e = Entry.mk (sc.type ++ '/' :: r.label) DType.fileSet
          (_get_resource_uri r) (some sc.id) (some sc.quality) [] none) := by
  constructor
  · intro sc hsc r hr
    unfold populate_row
    simp only [List.mem_append]
    left
    left
    rw [mem_concatMapList]
    refine ⟨sc, hsc, ?_⟩
    rw [List.mem_map]
    exact ⟨r, hr, rfl⟩
  · intro e he
    unfold populate_row at he
    simp only [List.map_nil, List.append_nil] at he
    rw [mem_concatMapList] at he
    obtain ⟨sc, hsc, he⟩ := he
    rw [List.mem_map] at he
    obtain ⟨r, hr, he⟩ := he
    exact ⟨sc, hsc, r, hr, he.symm⟩

/-- Witness for C3's amended theorem: the `t1w`/`DICOM` scan resource
entry is registered with datatype `FileSet`, order `1`, quality
`usable`. -/
theorem c3_witness :
    Entry.mk ("t1w".data ++ '/' :: "DICOM".data) DType.fileSet
      (_get_resource_uri ⟨"DICOM".data,
        "/data/projects/P/experiments/E/scans/1/resources/101".data, "".data⟩)
      (some "1".data) (some "usable".data) [] none ∈
      populate_row (fun _ => none) (fun _ => []) (fun _ => [])
        ⟨some [⟨"t1w".data, "1".data, "usable".data,
          [⟨"DICOM".data,
            "/data/projects/P/experiments/E/scans/1/resources/101".data,
            "".data⟩]⟩], [], []⟩ :=
  (c3_scan_resource_entries (fun _ => none) (fun _ => []) (fun _ => [])
      [⟨"t1w".data, "1".data, "usable".data,
        [⟨"DICOM".data,
          "/data/projects/P/experiments/E/scans/1/resources/101".data,
          "".data⟩]⟩] [] []).1
    ⟨"t1w".data, "1".data, "usable".data,
      [⟨"DICOM".data,
        "/data/projects/P/experiments/E/scans/1/resources/101".data,
        "".data⟩]⟩ (by simp)
    ⟨"DICOM".data,
      "/data/projects/P/experiments/E/scans/1/resources/101".data,
      "".data⟩ (by simp)

/-- C10: every file-set entry URI registered by `populate_row` or
`create_fileset_entry` has the resource's final URI segment (its
numeric id) replaced by the resource label: the last segment of the
registered URI equals the label (labels contain no `/`). -/
theorem c10_uri_last_segment_is_label :
    (∀ (fromMime : Str → Option DType) (gdh gcs : Option Str → List (Str × Str))
      (xrow : XRow),
      (∀ r ∈ allResources xrow, '/' ∉ r.label) →
      ∀ e ∈ populate_row fromMime gdh gcs xrow, ∀ u, e.uri = some u →
        ∃ r ∈ allResources xrow, lastSegment u = r.label) ∧
    (∀ newId xrowUri path datatype st e p, path = '@' :: p →
      '/' ∉ newId → newId ≠ [] → '/' ∉ path2varname p →
      (create_fileset_entry newId xrowUri path datatype st).1 = .ok e →
      ∀ u, e.uri = some u → lastSegment u = path2varname p) := by
  constructor
  · intro fromMime gdh gcs xrow hlbl e he u hu
    unfold populate_row at he
    simp only [List.mem_append] at he
    rcases he with (he | he) | he
    · rcases hscans : xrow.scans with - | scans
      · rw [hscans] at he
        simp at he
      · rw [hscans] at he
        rw [mem_concatMapList] at he
        obtain ⟨sc, hsc, he⟩ := he
        rw [List.mem_map] at he
        obtain ⟨r, hr, he⟩ := he
        have hmem : r ∈ allResources xrow := by
          unfold allResources
          rw [hscans]
          simp only [Option.getD_some, List.mem_append]
          left
          rw [mem_concatMapList]
          exact ⟨sc, hsc, hr⟩
        refine ⟨r, hmem, ?_⟩
        rw [← he] at hu
        exact lastSegment_get_resource_uri r u hu (hlbl r hmem)
    · rw [List.mem_map] at he
      obtain ⟨fid, _, he⟩ := he
      rw [← he] at hu
      simp [fieldEntry] at hu
    · rw [List.mem_map] at he
      obtain ⟨r, hr, he⟩ := he
      have hmem : r ∈ allResources xrow := by
        unfold allResources
        simp only [List.mem_append]
        right
        exact hr
      refine ⟨r, hmem, ?_⟩
      rw [← he] at hu
      simp only [rowResourceEntry] at hu
      exact lastSegment_get_resource_uri r u hu (hlbl r hmem)
  · intro newId xrowUri path datatype st e p hp hslash hne hplbl hok u hu
    subst hp
    have hok' : Except.ok (Entry.mk p datatype
        (_get_resource_uri ⟨path2varname p,
          xrowUri ++ "/resources/".data ++ newId, datatype.mimeLike⟩)
        none none [] none) = Except.ok e := hok
    obtain rfl := Except.ok.inj hok'
    exact lastSegment_get_resource_uri
      ⟨path2varname p, xrowUri ++ "/resources/".data ++ newId, datatype.mimeLike⟩
      u hu hplbl

/-- Witness for C10: the entry created at `@d1` (server id `101`) gets
URI `/data/projects/P/resources/d1`, whose last segment is the label. -/
theorem c10_witness :
    lastSegment ("/data/projects/P/resources/".data ++ path2varname "d1".data) =
      path2varname "d1".data :=
  c10_uri_last_segment_is_label.2 "101".data "/data/projects/P".data
    "@d1".data .fileSet ⟨[], []⟩
    (Entry.mk "d1".data .fileSet
      (_get_resource_uri ⟨path2varname "d1".data,
        "/data/projects/P".data ++ "/resources/".data ++ "101".data,
        DType.fileSet.mimeLike⟩) none none [] none)
    "d1".data rfl (by decide) (by decide) (by decide) rfl
    ("/data/projects/P/resources/".data ++ path2varname "d1".data) (by decide)

/-! ## Lexicographic string order (Python `sorted`) -/

theorem strLe_nil_left (y : Str) : strLe [] y = true := by
  cases y <;> rfl

theorem strLe_cons_cons (a b : Char) (as bs : Str) :
    strLe (a :: as) (b :: bs) =
      if a.toNat < b.toNat then true
      else if b.toNat < a.toNat then false
      else strLe as bs := rfl

theorem strLe_refl (x : Str) : strLe x x = true := by
  induction x with
  | nil => rfl
  | cons a as ih => simp [strLe_cons_cons, Nat.lt_irrefl, ih]

theorem strLe_total (x : Str) : ∀ y, strLe x y = true ∨ strLe y x = true := by
  induction x with
  | nil => intro y; exact Or.inl (strLe_nil_left y)
  | cons a as ih =>
    intro y
    cases y with
    | nil => exact Or.inr rfl
    | cons b bs =>
      rcases Nat.lt_trichotomy a.toNat b.toNat with h | h | h
      · left
        simp [strLe_cons_cons, h]
      · rcases ih bs with h2 | h2
        · left
          simp [strLe_cons_cons, h, Nat.lt_irrefl, h2]
        · right
          simp [strLe_cons_cons, h, Nat.lt_irrefl, h2]
      · right
        simp [strLe_cons_cons, h]

theorem strLe_trans : ∀ (x y z : Str),
    strLe x y = true → strLe y z = true → strLe x z = true := by
  intro x
  induction x with
  | nil => intro y z _ _; exact strLe_nil_left z
  | cons a as ih =>
    intro y z hxy hyz
    cases y with
    | nil => simp [strLe] at hxy
    | cons b bs =>
      cases z with
      | nil => simp [strLe] at hyz
      | cons c cs =>
        rw [strLe_cons_cons] at hxy hyz ⊢
        by_cases hab : a.toNat < b.toNat
        · by_cases hbc : b.toNat < c.toNat
          · rw [if_pos (Nat.lt_trans hab hbc)]
          · by_cases hcb : c.toNat < b.toNat
            · rw [if_neg hbc, if_pos hcb] at hyz
              exact absurd hyz (by simp)
            · rw [if_pos (by omega)]
        · by_cases hba : b.toNat < a.toNat
          · rw [if_neg hab, if_pos hba] at hxy
            exact absurd hxy (by simp)
          · rw [if_neg hab, if_neg hba] at hxy
            by_cases hbc : b.toNat < c.toNat
            · rw [if_pos (by omega)]
            · by_cases hcb : c.toNat < b.toNat
              · rw [if_neg hbc, if_pos hcb] at hyz
                exact absurd hyz (by simp)
              · rw [if_neg hbc, if_neg hcb] at hyz
                rw [if_neg (by omega), if_neg (by omega)]
                exact ih bs cs hxy hyz

theorem strLe_antisymm : ∀ (x y : Str),
    strLe x y = true → strLe y x = true → x = y := by
  intro x
  induction x with
  | nil =>
    intro y h1 h2
    cases y with
    | nil => rfl
    | cons b bs => simp [strLe] at h2
  | cons a as ih =>
    intro y h1 h2
    cases y with
    | nil => simp [strLe] at h1
    | cons b bs =>
      rw [strLe_cons_cons] at h1 h2
      by_cases hab : a.toNat < b.toNat
      · rw [if_neg (by omega), if_pos hab] at h2
        exact absurd h2 (by simp)
      · by_cases hba : b.toNat < a.toNat
        · rw [if_neg hab, if_pos hba] at h1
          exact absurd h1 (by simp)
        · have hchar : a = b := by
            have h : a.toNat = b.toNat := by omega
            have := congrArg Char.ofNat h
            simpa [Char.ofNat_toNat] using this
          rw [if_neg hab, if_neg hba] at h1
          rw [if_neg (by omega), if_neg (by omega)] at h2
          rw [hchar, ih bs h1 h2]

theorem strLe_append_cancel (C x y : Str) : strLe (C ++ x) (C ++ y) = strLe x y := by
  induction C with
  | nil => rfl
  | cons c cc ih => simp [strLe_cons_cons, Nat.lt_irrefl, ih]

theorem pairLe_total (x y : Str × Str) : pairLe x y = true ∨ pairLe y x = true := by
  unfold pairLe
  by_cases h : x.1 = y.1
  · rw [if_pos h, if_pos h.symm]
    exact strLe_total x.2 y.2
  · rw [if_neg h, if_neg (fun e => h e.symm)]
    exact strLe_total x.1 y.1

theorem pairLe_trans (x y z : Str × Str) (h1 : pairLe x y = true)
    (h2 : pairLe y z = true) : pairLe x z = true := by
  unfold pairLe at h1 h2 ⊢
  by_cases hxy : x.1 = y.1 <;> by_cases hyz : y.1 = z.1
  · rw [if_pos hxy] at h1
    rw [if_pos hyz] at h2
    rw [if_pos (hxy.trans hyz)]
    exact strLe_trans _ _ _ h1 h2
  · rw [if_pos hxy] at h1
    rw [if_neg hyz] at h2
    rw [if_neg (fun e => hyz (hxy.symm.trans e))]
    rw [hxy]
    exact h2
  · rw [if_neg hxy] at h1
    rw [if_pos hyz] at h2
    rw [if_neg (fun e => hxy (e.trans hyz.symm))]
    rw [← hyz]
    exact h1
  · rw [if_neg hxy] at h1
    rw [if_neg hyz] at h2
    by_cases hxz : x.1 = z.1
    · exfalso
      rw [← hxz] at h2
      exact hxy (strLe_antisymm _ _ h1 h2)
    · rw [if_neg hxz]
      exact strLe_trans _ _ _ h1 h2

/-! ## Insertion sort correctness -/

theorem mem_insertLe {α : Type} {le : α → α → Bool} {a x : α} {l : List α} :
    x ∈ insertLe le a l ↔ x = a ∨ x ∈ l := by
  induction l with
  | nil => simp [insertLe]
  | cons b bs ih =>
    simp only [insertLe]
    by_cases h : le a b = true
    · rw [if_pos h]
      simp [List.mem_cons]
    · rw [if_neg h]
      simp only [List.mem_cons, ih]
      tauto

theorem insertLe_perm {α : Type} (le : α → α → Bool) (a : α) (l : List α) :
    List.Perm (insertLe le a l) (a :: l) := by
  induction l with
  | nil => exact List.Perm.refl _
  | cons b bs ih =>
    simp only [insertLe]
    by_cases h : le a b = true
    · rw [if_pos h]
    · rw [if_neg h]
      exact (ih.cons b).trans (List.Perm.swap a b bs)

theorem sortLe_perm {α : Type} (le : α → α → Bool) (l : List α) :
    List.Perm (sortLe le l) l := by
  induction l with
  | nil => exact List.Perm.refl _
  | cons a as ih => exact (insertLe_perm le a (sortLe le as)).trans (ih.cons a)

theorem insertLe_sorted {α : Type} (le : α → α → Bool)
    (htrans : ∀ x y z, le x y = true → le y z = true → le x z = true)
    (htotal : ∀ x y, le x y = true ∨ le y x = true) (a : α) (l : List α)
    (hl : l.Pairwise (fun x y => le x y = true)) :
    (insertLe le a l).Pairwise (fun x y => le x y = true) := by
  induction l with
  | nil => simp [insertLe]
  | cons b bs ih =>
    simp only [insertLe]
    rcases List.pairwise_cons.mp hl with ⟨hb, hbs⟩
    by_cases h : le a b = true
    · rw [if_pos h]
      refine List.pairwise_cons.mpr ⟨?_, hl⟩
      intro x hx
      rcases List.mem_cons.mp hx with rfl | hx
      · exact h
      · exact htrans a b x h (hb x hx)
    · rw [if_neg h]
      have hba : le b a = true := (htotal a b).resolve_left h
      refine List.pairwise_cons.mpr ⟨?_, ih hbs⟩
      intro x hx
      rcases mem_insertLe.mp hx with rfl | hx
      · exact hba
      · exact hb x hx

theorem sortLe_sorted {α : Type} (le : α → α → Bool)
    (htrans : ∀ x y z, le x y = true → le y z = true → le x z = true)
    (htotal : ∀ x y, le x y = true ∨ le y x = true) (l : List α) :
    (sortLe le l).Pairwise (fun x y => le x y = true) := by
  induction l with
  | nil => simp [sortLe]
  | cons a as ih => exact insertLe_sorted le htrans htotal a _ ih

/-! ## Python dicts with distinct keys -/

theorem dictUpsert_of_not_mem (d : List (Str × Str)) (k : Str) (v : Str)
    (h : ∀ kv ∈ d, kv.1 ≠ k) : dictUpsert d k v = d ++ [(k, v)] := by
  induction d with
  | nil => rfl
  | cons kv t ih =>
    obtain ⟨k', v'⟩ := kv
    simp only [dictUpsert]
    rw [if_neg (h (k', v') (List.mem_cons_self _ _))]
    rw [ih (fun kv hkv => h kv (List.mem_cons_of_mem _ hkv))]
    rfl

theorem pyDict_foldl_aux : ∀ (l acc : List (Str × Str)),
    (acc.map Prod.fst ++ l.map Prod.fst).Nodup →
    List.foldl (fun d kv => dictUpsert d kv.1 kv.2) acc l = acc ++ l := by
  intro l
  induction l with
  | nil =>
    intro acc _
    simp
  | cons kv t ih =>
    intro acc hacc
    obtain ⟨k, v⟩ := kv
    simp only [List.foldl_cons]
    have hnk : ∀ kv' ∈ acc, kv'.1 ≠ k := by
      intro kv' hkv' e
      rcases List.nodup_append.mp hacc with ⟨-, -, hdisj⟩
      exact hdisj (List.mem_map_of_mem Prod.fst hkv') (by simp [e])
    rw [dictUpsert_of_not_mem acc k v hnk]
    rw [ih (acc ++ [(k, v)]) (by
      simp only [List.map_append, List.map_cons, List.map_nil] at hacc ⊢
      simpa [List.append_assoc] using hacc)]
    simp

theorem pyDict_eq_self (l : List (Str × Str)) (h : (l.map Prod.fst).Nodup) :
    pyDict l = l := by
  simpa using pyDict_foldl_aux l [] (by simpa using h)

/-! ## The checksum re-keying regex -/

theorem lastCapture_cons (c : Char) (cs : Str) :
    lastCapture (c :: cs) =
      (match lastCapture cs with
        | some r => some r
        | none => matchHere (c :: cs)) := rfl

theorem matchHere_shape (w rel : Str) (hw : ∀ c ∈ w, isWordChar c = true)
    (h0 : w ≠ []) :
    matchHere ("/resources/".data ++ (w ++ ("/files/".data ++ rel))) = some rel := by
  have h2 : ("/resources/".data ++ (w ++ ("/files/".data ++ rel))).drop 11 =
      w ++ ("/files/".data ++ rel) := List.drop_left' (by decide)
  have h3 : List.takeWhile isWordChar (w ++ ("/files/".data ++ rel)) = w := by
    have hcons : "/files/".data ++ rel = '/' :: ("files/".data ++ rel) := rfl
    rw [hcons, List.takeWhile_append_of_pos hw,
      List.takeWhile_cons_of_neg (by decide), List.append_nil]
  simp only [matchHere]
  rw [if_pos (startsWithStr_append "/resources/".data _)]
  rw [h2, h3]
  rw [if_neg h0]
  rw [List.drop_left]
  rw [if_pos (startsWithStr_append "/files/".data rel)]
  rw [List.drop_left' (by decide)]

theorem lastCapture_append_some (l₁ l₂ : Str) (r : Str)
    (h : lastCapture l₂ = some r) : lastCapture (l₁ ++ l₂) = some r := by
  induction l₁ with
  | nil => simpa using h
  | cons c cs ih =>
    rw [List.cons_append, lastCapture_cons, ih]

theorem matchHere_none_of_no_pat (l : Str)
    (h : startsWithStr l "/resources/".data = false) : matchHere l = none := by
  simp only [matchHere]
  rw [if_neg (by simp [h])]

theorem lastCapture_none_of_not_contains (s : Str)
    (h : containsStr s "/resources/".data = false) : lastCapture s = none := by
  induction s with
  | nil => rfl
  | cons c cs ih =>
    simp only [containsStr, Bool.or_eq_false_iff] at h
    rw [lastCapture_cons, ih h.2]
    exact matchHere_none_of_no_pat _ h.1

theorem lastCapture_full (u₀ w rel : Str)
    (hw : ∀ c ∈ w, isWordChar c = true) (h0 : w ≠ [])
    (hnc : containsStr ("resources/".data ++ (w ++ ("/files/".data ++ rel)))
      "/resources/".data = false) :
    lastCapture (u₀ ++ ("/resources/".data ++ (w ++ ("/files/".data ++ rel)))) =
      some rel := by
  apply lastCapture_append_some
  have hT : "/resources/".data ++ (w ++ ("/files/".data ++ rel)) =
      '/' :: ("resources/".data ++ (w ++ ("/files/".data ++ rel))) := rfl
  rw [hT, lastCapture_cons, lastCapture_none_of_not_contains _ hnc]
  exact matchHere_shape w rel hw h0

theorem mapStripKeys_eq (g : Str → Str) : ∀ (l : List (Str × Str)),
    (∀ kv ∈ l, lastCapture kv.1 = some (g kv.1)) →
    mapStripKeys l = some (l.map (fun kv => (g kv.1, kv.2))) := by
  intro l
  induction l with
  | nil => intro _; rfl
  | cons kv t ih =>
    intro h
    obtain ⟨k, v⟩ := kv
    simp only [mapStripKeys]
    rw [h (k, v) (List.mem_cons_self _ _),
      ih (fun kv hkv => h kv (List.mem_cons_of_mem _ hkv))]
    rfl

/-- C4: `get_checksums` with a null URI raises `ArcanaUsageError` (the
spec's UsageError); with a non-null resource URI it returns the remote
per-file digest mapping re-keyed so that each key is the file path
relative to the resource root — the base URI prefix up to and including
`/files/` is stripped — with entries in sorted key order.  The resource
URI ends in `/resources/<label>` with a word-character label, and each
listed file URI is the resource URI plus `/files/` plus a relative path
that does not itself embed another `/resources/<w>/files/` marker; the
remote listing has distinct URIs. -/
theorem c4_get_checksums_rekeyed_sorted :
    (∀ results, get_checksums none results =
      .error (.usage "Cant retrieve checksums as URI has not been set".data)) ∧
    (∀ (u₀ w : Str) (results : List FileResult),
      (∀ c ∈ w, isWordChar c = true) → w ≠ [] →
      (∀ r ∈ results, ∃ rel,
        r.uri = (u₀ ++ "/resources/".data ++ w) ++ "/files/".data ++ rel ∧
        containsStr ("resources/".data ++ (w ++ ("/files/".data ++ rel)))
          "/resources/".data = false) →
      (results.map FileResult.uri).Nodup →
      ∃ l, get_checksums (some (u₀ ++ "/resources/".data ++ w)) results = .ok l ∧
        List.Perm l (results.map (fun r =>
          (r.uri.drop ((u₀ ++ "/resources/".data ++ w).length + 7), r.digest))) ∧
        l.Pairwise (fun a b => strLe a.1 b.1 = true)) := by
  constructor
  · intro results
    rfl
  · intro u₀ w results hw h0 hkeys hnodup
    have hmapfst : (results.map (fun r => (r.uri, r.digest))).map Prod.fst =
        results.map FileResult.uri := by
      simp [List.map_map]
    have hd1 : pyDict (results.map (fun r => (r.uri, r.digest))) =
        results.map (fun r => (r.uri, r.digest)) :=
      pyDict_eq_self _ (by rw [hmapfst]; exact hnodup)
    have hperm : List.Perm
        (sortLe pairLe (results.map (fun r => (r.uri, r.digest))))
        (results.map (fun r => (r.uri, r.digest))) :=
      sortLe_perm pairLe _
    have hsorted : (sortLe pairLe (results.map (fun r => (r.uri, r.digest)))).Pairwise
        (fun x y => pairLe x y = true) :=
      sortLe_sorted pairLe pairLe_trans pairLe_total _
    have hshape : ∀ kv ∈ sortLe pairLe (results.map (fun r => (r.uri, r.digest))),
        ∃ rel, kv.1 = (u₀ ++ "/resources/".data ++ w) ++ "/files/".data ++ rel ∧
          lastCapture kv.1 = some rel ∧
          kv.1.drop ((u₀ ++ "/resources/".data ++ w).length + 7) = rel := by
      intro kv hkv
      have hkv' : kv ∈ results.map (fun r => (r.uri, r.digest)) :=
        hperm.mem_iff.mp hkv
      rw [List.mem_map] at hkv'
      obtain ⟨r, hr, hkvr⟩ := hkv'
      obtain ⟨rel, hrel, hclean⟩ := hkeys r hr
      have hfst : kv.1 = r.uri := by rw [← hkvr]
      refine ⟨rel, ?_, ?_, ?_⟩
      · rw [hfst]
        exact hrel
      · rw [hfst]
        have hassoc : r.uri =
            u₀ ++ ("/resources/".data ++ (w ++ ("/files/".data ++ rel))) := by
          rw [hrel]
          simp [List.append_assoc]
        rw [hassoc]
        exact lastCapture_full u₀ w rel hw h0 hclean
      · rw [hfst, hrel]
        exact List.drop_left' (by
          simp [List.length_append]
          omega)
    have hstrip : mapStripKeys (sortLe pairLe (results.map (fun r => (r.uri, r.digest)))) =
        some ((sortLe pairLe (results.map (fun r => (r.uri, r.digest)))).map
          (fun kv => (kv.1.drop ((u₀ ++ "/resources/".data ++ w).length + 7), kv.2))) := by
      apply mapStripKeys_eq
      intro kv hkv
      obtain ⟨rel, -, hlc, hgk⟩ := hshape kv hkv
      rw [hlc, hgk]
    have hfst_nodup : ((sortLe pairLe (results.map (fun r => (r.uri, r.digest)))).map
        Prod.fst).Nodup := by
      refine ((hperm.map Prod.fst).nodup_iff).mpr ?_
      rw [hmapfst]
      exact hnodup
    have hinjkeys : ∀ x ∈ sortLe pairLe (results.map (fun r => (r.uri, r.digest))),
        ∀ y ∈ sortLe pairLe (results.map (fun r => (r.uri, r.digest))),
        x.1.drop ((u₀ ++ "/resources/".data ++ w).length + 7) =
          y.1.drop ((u₀ ++ "/resources/".data ++ w).length + 7) → x = y := by
      intro x hx y hy hxy
      obtain ⟨rx, hx1, -, hgx⟩ := hshape x hx
      obtain ⟨ry, hy1, -, hgy⟩ := hshape y hy
      have hk : x.1 = y.1 := by
        rw [hgx, hgy] at hxy
        rw [hx1, hy1, hxy]
      exact List.inj_on_of_nodup_map hfst_nodup hx hy hk
    have hnodup2 : (((sortLe pairLe (results.map (fun r => (r.uri, r.digest)))).map
        (fun kv => (kv.1.drop ((u₀ ++ "/resources/".data ++ w).length + 7), kv.2))).map
        Prod.fst).Nodup := by
      rw [List.map_map]
      refine List.Nodup.map_on ?_ (hfst_nodup.of_map Prod.fst)
      intro x hx y hy hxy
      exact hinjkeys x hx y hy (by simpa using hxy)
    have hd2 : pyDict ((sortLe pairLe (results.map (fun r => (r.uri, r.digest)))).map
        (fun kv => (kv.1.drop ((u₀ ++ "/resources/".data ++ w).length + 7), kv.2))) =
        (sortLe pairLe (results.map (fun r => (r.uri, r.digest)))).map
          (fun kv => (kv.1.drop ((u₀ ++ "/resources/".data ++ w).length + 7), kv.2)) :=
      pyDict_eq_self _ hnodup2
    refine ⟨(sortLe pairLe (results.map (fun r => (r.uri, r.digest)))).map
      (fun kv => (kv.1.drop ((u₀ ++ "/resources/".data ++ w).length + 7), kv.2)),
      ?_, ?_, ?_⟩
    · simp only [get_checksums]
      rw [hd1, hstrip]
      exact congrArg Except.ok hd2
    · refine (hperm.map _).trans ?_
      rw [List.map_map]
      exact List.Perm.refl _
    · rw [List.pairwise_map]
      refine List.Pairwise.imp_of_mem ?_ hsorted
      intro x y hx hy hxy
      obtain ⟨rx, hx1, -, hgx⟩ := hshape x hx
      obtain ⟨ry, hy1, -, hgy⟩ := hshape y hy
      rw [hgx, hgy]
      unfold pairLe at hxy
      by_cases hk : x.1 = y.1
      · have hrr : rx = ry := by
          rw [hx1, hy1] at hk
          exact (List.append_right_inj _).mp hk
        rw [hrr]
        exact strLe_refl ry
      · rw [if_neg hk] at hxy
        rw [hx1, hy1] at hxy
        rw [← strLe_append_cancel ((u₀ ++ "/resources/".data ++ w) ++ "/files/".data)
          rx ry]
        exact hxy

/-- Witness for C4: a one-file listing for resource `R1` is re-keyed to
the path relative to the resource root. -/
theorem c4_witness :
    ∃ l, get_checksums
        (some ("/data/projects/P/subjects/S".data ++ "/resources/".data ++ "R1".data))
        [⟨"/data/projects/P/subjects/S/resources/R1/files/a.txt".data,
          "d41d8cd9".data⟩] = .ok l ∧
      List.Perm l ([(⟨"/data/projects/P/subjects/S/resources/R1/files/a.txt".data,
          "d41d8cd9".data⟩ : FileResult)].map (fun r =>
        (r.uri.drop (("/data/projects/P/subjects/S".data ++ "/resources/".data ++
          "R1".data).length + 7), r.digest))) ∧
      l.Pairwise (fun a b => strLe a.1 b.1 = true) :=
  c4_get_checksums_rekeyed_sorted.2 "/data/projects/P/subjects/S".data "R1".data
    [⟨"/data/projects/P/subjects/S/resources/R1/files/a.txt".data, "d41d8cd9".data⟩]
    (by decide) (by decide)
    (by
      intro r hr
      rw [List.mem_singleton] at hr
      subst hr
      exact ⟨"a.txt".data, by decide, by decide⟩)
    (by decide)

end ArcanaXnat
